import Mathlib

/-!
Verification of the Gator feed-aggregation pipeline.

This file gives a shallow embedding of the pipeline's core code:

* `parsePubDate` from `internal/rss/fetch.go` (date normalizer);
* `FetchFeed` from `internal/rss/fetch.go` (feed fetcher);
* `SavePostsToDatabase` from `internal/rss/fetch.go` (post persister);
* `validateConfig`, `processFeed`, `aggregateFeeds` from `main.go`
  (aggregation scheduler), together with a small-step model of the
  counting-semaphore admission gate used by `aggregateFeeds`.

External collaborators (Go's `time.Parse`, the HTTP transport, `xml.Unmarshal`,
`html.UnescapeString`, the relational store, and the fresh-value generators
`uuid.New` / `time.Now`) are modelled as explicit oracle parameters: the
embedded functions are parametric in their behaviour, exactly as the Go code is
parametric in the behaviour of those libraries.  Machine instants (`time.Time`)
are modelled as integers, with `0` standing for Go's zero time, so that
`IsZero` becomes an equality test with `0`.
-/

namespace Gator

/-- GoTime models Go's `time.Time` as an abstract instant; `0` is the zero
time, so `t.IsZero()` becomes `t = 0`. -/
abbrev GoTime := Int

/-- RSSItem mirrors `rss.RSSItem` from `internal/rss/types.go`. -/
structure RSSItem where
  title : String
  link : String
  description : String
  pubDate : String
  guid : String
  deriving Repr, DecidableEq

/-- RSSChannel mirrors `rss.RSSChannel` from `internal/rss/types.go`. -/
structure RSSChannel where
  title : String
  link : String
  description : String
  language : String
  lastBuildDate : String
  items : List RSSItem
  deriving Repr, DecidableEq

/-- RSSFeed mirrors `rss.RSSFeed` from `internal/rss/types.go`. -/
structure RSSFeed where
  channel : RSSChannel
  deriving Repr, DecidableEq

/-! ### Date normalizer (`parsePubDate`, internal/rss/fetch.go lines 113-135)

`GoParse` is the oracle for Go's `time.Parse layout value`: `some t` models a
successful parse returning instant `t`, `none` models a parse error. -/

/-- GoParse abstracts Go's `time.Parse (layout, value)`. -/
abbrev GoParse := String → String → Option GoTime

/-- isSpaceGo models Go's `unicode.IsSpace` on the whitespace characters that
occur in feed date strings (the ASCII white space class). -/
def isSpaceGo (c : Char) : Bool :=
  c = ' ' || c = '\t' || c = '\n' || c = '\x0b' || c = '\x0c' || c = '\r'

/-- goTrimSpace models Go's `strings.TrimSpace`: it removes the leading and
trailing white-space runes of the string. -/
def goTrimSpace (s : String) : String :=
  String.mk (((s.toList.dropWhile isSpaceGo).reverse.dropWhile isSpaceGo).reverse)

/-- formats is the fixed layout list tried by `parsePubDate`, in source
order: `time.RFC1123Z`, `time.RFC1123`, `time.RFC3339`, then three plain
layouts. -/
def formats : List String :=
  ["Mon, 02 Jan 2006 15:04:05 -0700",
   "Mon, 02 Jan 2006 15:04:05 MST",
   "2006-01-02T15:04:05Z07:00",
   "2006-01-02 15:04:05",
   "2006-01-02T15:04:05",
   "2006-01-02"]

/-- tryFormats is the `for _, format := range formats` loop of
`parsePubDate`: each iteration calls `time.Parse(format, strings.TrimSpace(pubDate))`
and returns on the first success; falling off the loop returns the zero time
and the `unable to parse date` error.  The Go function returns a
`(time.Time, error)` pair, modelled as `GoTime × Option String`. -/
def tryFormats (goParse : GoParse) (pubDate : String) : List String → GoTime × Option String
  | [] => (0, some ("unable to parse date: " ++ pubDate))
  | f :: rest =>
    match goParse f (goTrimSpace pubDate) with
    | some t => (t, none)
    | none => tryFormats goParse pubDate rest

/-- parsePubDate mirrors `parsePubDate` from `internal/rss/fetch.go`: an empty
input fails immediately (before consulting any layout); otherwise the layout
list is tried in order on the whitespace-trimmed input. -/
def parsePubDate (goParse : GoParse) (pubDate : String) : GoTime × Option String :=
  if pubDate = "" then (0, some "empty published date")
  else tryFormats goParse pubDate formats

/-- tryFormatsTrace instruments `tryFormats` with the list of layouts actually
attempted, in order; the first component agrees with `tryFormats`. -/
def tryFormatsTrace (goParse : GoParse) (pubDate : String) :
    List String → (GoTime × Option String) × List String
  | [] => ((0, some ("unable to parse date: " ++ pubDate)), [])
  | f :: rest =>
    match goParse f (goTrimSpace pubDate) with
    | some t => ((t, none), [f])
    | none =>
      let r := tryFormatsTrace goParse pubDate rest
      (r.1, f :: r.2)

/-- parsePubDateTrace instruments `parsePubDate` with the list of layouts
attempted. -/
def parsePubDateTrace (goParse : GoParse) (pubDate : String) :
    (GoTime × Option String) × List String :=
  if pubDate = "" then ((0, some "empty published date"), [])
  else tryFormatsTrace goParse pubDate formats

/-! ### Feed fetcher (`FetchFeed`, internal/rss/fetch.go lines 28-73)

The HTTP transport and the XML decoder are external collaborators, modelled by
a `Transport` oracle.  The second component of `fetchFeed`'s result records
whether the request was issued (i.e. whether `client.Do` was reached). -/

/-- HTTPClient carries the one field of Go's `http.Client` that `FetchFeed`
inspects: `Timeout`, a `time.Duration` (an integer nanosecond count). -/
structure HTTPClient where
  timeout : Int
  deriving Repr, DecidableEq

/-- HTTPRequest models the request built by `http.NewRequestWithContext` plus
the `User-Agent` header set immediately afterwards. -/
structure HTTPRequest where
  method : String
  url : String
  userAgent : String
  deriving Repr, DecidableEq

/-- Transport bundles the external effects of `FetchFeed`:
request construction (`http.NewRequestWithContext`, which can fail),
issuing the request (`client.Do`, yielding a response), reading the body
(`io.ReadAll`), and decoding (`xml.Unmarshal`). -/
structure Transport where
  newRequestErr : String → Option String
  doRequest : HTTPRequest → Except String String
  readBody : String → Except String String
  unmarshal : String → Except String RSSFeed

/-- fetchFeed mirrors `rss.FetchFeed`.  `unescape` is the oracle for Go's
`html.UnescapeString`.  The boolean result records whether `client.Do` was
reached (a request was issued).  The timeout guard in the source is
`client.Timeout == 0` — an equality test with zero, not a positivity test. -/
def fetchFeed (unescape : String → String) (tr : Transport) (client : HTTPClient)
    (feedURL : String) : Except String RSSFeed × Bool :=
  if client.timeout = 0 then
    (Except.error "HTTP client must have a timeout configured", false)
  else
    match tr.newRequestErr feedURL with
    | some e => (Except.error e, false)
    | none =>
      let req : HTTPRequest := { method := "GET", url := feedURL, userAgent := "gator" }
      match tr.doRequest req with
      | Except.error e => (Except.error e, true)
      | Except.ok resp =>
        match tr.readBody resp with
        | Except.error e => (Except.error e, true)
        | Except.ok body =>
          match tr.unmarshal body with
          | Except.error e => (Except.error e, true)
          | Except.ok feed =>
            (Except.ok
              { channel :=
                { title := unescape feed.channel.title,
                  link := feed.channel.link,
                  description := unescape feed.channel.description,
                  language := feed.channel.language,
                  lastBuildDate := feed.channel.lastBuildDate,
                  items := feed.channel.items.map (fun it =>
                    { title := unescape it.title,
                      link := it.link,
                      description := unescape it.description,
                      pubDate := it.pubDate,
                      guid := it.guid }) } }, true)

/-! ### Post persister (`SavePostsToDatabase`, internal/rss/fetch.go lines 76-110)

The store is an oracle `db : CreatePostParams → Option String` returning the
error of one `CreatePost` call (or `none`).  `uuid.New()` and the two
`time.Now().UTC()` calls are modelled by a per-entry fresh-value oracle
`gen : Nat → Nat × GoTime × GoTime`. -/

/-- CreatePostParams mirrors `database.CreatePostParams` as built by
`SavePostsToDatabase`: `description` is `some` iff the item description is
nonempty (`sql.NullString` with `Valid: item.Description != ""`), and
`publishedAt` is `some` iff the parsed time is not the zero time
(`sql.NullTime` with `Valid: !publishedAt.IsZero()`). -/
structure CreatePostParams where
  id : Nat
  createdAt : GoTime
  updatedAt : GoTime
  title : String
  url : String
  description : Option String
  publishedAt : Option GoTime
  feedID : Nat
  deriving Repr, DecidableEq

/-- SaveOutcome classifies one `db.CreatePost` call the way the loop body of
`SavePostsToDatabase` does: no error, an error recognised as a duplicate
(`unique constraint` / `duplicate key`), or any other error.  All three cases
continue with the next entry. -/
inductive SaveOutcome where
  | saved
  | duplicate
  | failed
  deriving Repr, DecidableEq

/-- containsSubstr models Go's `strings.Contains`. -/
def containsSubstr (s sub : String) : Bool :=
  decide (List.IsInfix sub.toList s.toList)

/-- mkCreatePostParams builds the `database.CreatePostParams` literal of
`SavePostsToDatabase` for the entry at index `i`. -/
def mkCreatePostParams (goParse : GoParse) (gen : Nat → Nat × GoTime × GoTime)
    (feedID : Nat) (i : Nat) (item : RSSItem) : CreatePostParams :=
  let publishedAt := (parsePubDate goParse item.pubDate).1
  let g := gen i
  { id := g.1,
    createdAt := g.2.1,
    updatedAt := g.2.2,
    title := item.title,
    url := item.link,
    description := if item.description = "" then none else some item.description,
    publishedAt := if publishedAt = 0 then none else some publishedAt,
    feedID := feedID }

/-- savePostsLoop is the `for _, item := range feed.Channel.Items` loop of
`SavePostsToDatabase`: every entry is attempted; a `db` error — duplicate or
otherwise — only selects a log branch and the loop continues.  The trace
records, in order, each attempted insert and how its outcome was classified. -/
def savePostsLoop (goParse : GoParse) (gen : Nat → Nat × GoTime × GoTime)
    (db : CreatePostParams → Option String) (feedID : Nat) :
    Nat → List RSSItem → List (CreatePostParams × SaveOutcome)
  | _, [] => []
  | i, item :: rest =>
    let params := mkCreatePostParams goParse gen feedID i item
    let outcome :=
      match db params with
      | none => SaveOutcome.saved
      | some e =>
        if containsSubstr e "unique constraint" || containsSubstr e "duplicate key" then
          SaveOutcome.duplicate
        else
          SaveOutcome.failed
    (params, outcome) :: savePostsLoop goParse gen db feedID (i + 1) rest

/-- savePostsToDatabase mirrors `rss.SavePostsToDatabase`: it runs the loop
over all entries and then returns `nil` (the function has a single `return
nil` and no early return).  The first component is the returned error, the
second the instrumented trace of attempted inserts. -/
def savePostsToDatabase (goParse : GoParse) (gen : Nat → Nat × GoTime × GoTime)
    (db : CreatePostParams → Option String) (feed : RSSFeed) (feedID : Nat) :
    Option String × List (CreatePostParams × SaveOutcome) :=
  (none, savePostsLoop goParse gen db feedID 0 feed.channel.items)

/-! ### Aggregation scheduler (`main.go` lines 1350-1429) -/

/-- FeedRow mirrors the fields of `database.GetFeedsWithUsersRow` that
`aggregateFeeds` reads (`ID`, `Url`; the rest carried along). -/
structure FeedRow where
  id : Nat
  url : String
  name : String
  userName : String
  deriving Repr, DecidableEq

/-- AggregationConfig mirrors `AggregationConfig` from `main.go`.  The `Fetch`
and `Save` dependencies take the `http.Client` / `database.Queries` handles in
Go; here those handles are absorbed into the oracles (a fetch is determined by
the URL, a save by the document and feed id).  Lean functions cannot be `nil`,
so the nil-defaulting of `validateConfig` has no counterpart. -/
structure AggregationConfig where
  workers : Int
  fetch : String → Except String RSSFeed
  save : RSSFeed → Nat → Option String

/-- AggregationResult mirrors `AggregationResult` from `main.go`. -/
structure AggregationResult where
  feedsProcessed : Nat
  totalPosts : Nat
  fetchErrors : Nat
  saveErrors : Nat
  deriving Repr, DecidableEq

/-- validateConfig mirrors `validateConfig` from `main.go`: a zero or negative
worker count is clamped to 1.  (The nil checks on `Fetch`/`Save` are vacuous
here, as Lean functions are always defined.) -/
def validateConfig (config : AggregationConfig) : AggregationConfig :=
  if config.workers ≤ 0 then { config with workers := 1 } else config

/-- processFeed mirrors `processFeed` from `main.go`.  In Go the counter
updates happen under one mutex, so each call performs one atomic update of the
shared result; the shallow embedding passes the result explicitly. -/
def processFeed (config : AggregationConfig) (feed : FeedRow)
    (result : AggregationResult) : AggregationResult :=
  match config.fetch feed.url with
  | Except.error _ => { result with fetchErrors := result.fetchErrors + 1 }
  | Except.ok rssFeed =>
    match config.save rssFeed feed.id with
    | some _ => { result with saveErrors := result.saveErrors + 1 }
    | none =>
      { result with
        feedsProcessed := result.feedsProcessed + 1,
        totalPosts := result.totalPosts + rssFeed.channel.items.length }

/-- runOrder folds `processFeed` over the feeds in a given completion order.
Because every worker performs exactly one mutex-protected update, any
concurrent schedule of `aggregateFeeds` yields the result of `runOrder` on
some permutation of the feed list. -/
def runOrder (config : AggregationConfig) (order : List FeedRow) : AggregationResult :=
  order.foldl (fun r f => processFeed config f r) ⟨0, 0, 0, 0⟩

/-- aggregateFeeds mirrors `aggregateFeeds` from `main.go`: it validates the
config and runs every feed exactly once, waiting for all workers
(`wg.Wait()`) before returning the shared result. -/
def aggregateFeeds (config : AggregationConfig) (feeds : List FeedRow) : AggregationResult :=
  runOrder (validateConfig config) feeds

/-! ### Small-step model of the admission gate of `aggregateFeeds`

The main goroutine loops over the feeds: `wg.Add(1)`, then `sem <- struct{}{}`
(blocking until a slot of the capacity-`Workers` channel is free), then spawns
a worker; each worker releases its slot (`<-sem`) when it finishes.  The state
records the main loop position, whether the main goroutine holds a slot it has
not yet handed to a spawned worker, the number of held slots, and the numbers
of active and finished workers. -/

/-- SemState is the instrumented state of one run of `aggregateFeeds`'s
spawn loop and its workers. -/
structure SemState where
  next : Nat
  mainHolding : Bool
  held : Nat
  active : Nat
  finished : Nat
  deriving Repr, DecidableEq

/-- SemStep is one scheduler step of `aggregateFeeds` with capacity `cap` and
`n` feeds: the main goroutine acquires a semaphore slot (`sem <- struct{}{}`,
enabled only while a slot is free), the main goroutine spawns the worker for
the slot it holds (`go func(...)`), or an active worker finishes and releases
its slot (`<-sem`). -/
inductive SemStep (cap n : Nat) : SemState → SemState → Prop where
  | acquire (s : SemState) (hm : s.mainHolding = false) (hn : s.next < n)
      (hh : s.held < cap) :
      SemStep cap n s { s with held := s.held + 1, mainHolding := true }
  | spawn (s : SemState) (hm : s.mainHolding = true) :
      SemStep cap n s { s with active := s.active + 1, next := s.next + 1, mainHolding := false }
  | finish (s : SemState) (ha : 0 < s.active) :
      SemStep cap n s { s with active := s.active - 1, held := s.held - 1, finished := s.finished + 1 }

/-- Reachable holds of the states a run of `aggregateFeeds` can be in, from
the initial state (no feed launched, no slot held, no worker). -/
inductive Reachable (cap n : Nat) : SemState → Prop where
  | init : Reachable cap n ⟨0, false, 0, 0, 0⟩
  | step {s s' : SemState} : Reachable cap n s → SemStep cap n s s' → Reachable cap n s'

/-- SemInv is the inductive invariant of the admission gate: the held slots
are exactly the active workers plus the slot the main goroutine may be
holding; no more than `cap` slots are ever held; every launched feed is
active or finished; and the main goroutine only holds a slot while a feed
remains to launch. -/
def SemInv (cap n : Nat) (s : SemState) : Prop :=
  s.held = s.active + (if s.mainHolding then 1 else 0)
  ∧ s.held ≤ cap
  ∧ s.finished + s.active = s.next
  ∧ s.next ≤ n
  ∧ (s.mainHolding = true → s.next < n)

/-! ### Per-feed outcome predicates of `processFeed` -/

/-- fetchFailsB holds of a feed whose `config.Fetch` call fails (the feed
lands in the `FetchErrors` branch of `processFeed`). -/
def fetchFailsB (config : AggregationConfig) (f : FeedRow) : Bool :=
  match config.fetch f.url with
  | Except.error _ => true
  | Except.ok _ => false

/-- saveFailsB holds of a feed whose fetch succeeds but whose `config.Save`
call fails (the `SaveErrors` branch of `processFeed`). -/
def saveFailsB (config : AggregationConfig) (f : FeedRow) : Bool :=
  match config.fetch f.url with
  | Except.error _ => false
  | Except.ok doc => (config.save doc f.id).isSome

/-- processedB holds of a feed whose fetch and save both succeed (the
`FeedsProcessed` branch of `processFeed`). -/
def processedB (config : AggregationConfig) (f : FeedRow) : Bool :=
  match config.fetch f.url with
  | Except.error _ => false
  | Except.ok doc => (config.save doc f.id).isNone

/-- entriesOf is the contribution of one feed to `TotalPosts`: the entry
count of its document when fetch and save both succeed, zero otherwise. -/
def entriesOf (config : AggregationConfig) (f : FeedRow) : Nat :=
  match config.fetch f.url with
  | Except.error _ => 0
  | Except.ok doc =>
    match config.save doc f.id with
    | some _ => 0
    | none => doc.channel.items.length

/-! ### Concrete fixtures used by the witnesses -/

/-- goParseW is a concrete parse oracle accepting only the layout
`"2006-01-02"` on the value `"2024-05-06"`. -/
def goParseW : GoParse :=
  fun f v => if f = "2006-01-02" && v = "2024-05-06" then some 99 else none

/-- cexFeed is a concrete decoded feed document. -/
def cexFeed : RSSFeed :=
  ⟨⟨"t", "l", "d", "en", "lb", []⟩⟩

/-- cexTransport is a transport on which every step succeeds and decoding
yields `cexFeed`. -/
def cexTransport : Transport :=
  { newRequestErr := fun _ => none,
    doRequest := fun _ => Except.ok "body",
    readBody := fun b => Except.ok b,
    unmarshal := fun _ => Except.ok cexFeed }

/-- w8Feed is a decoded document with HTML-escaped entities in the unescaped
fields. -/
def w8Feed : RSSFeed :=
  ⟨⟨"A&amp;B", "L", "C&amp;D", "en", "lb", [⟨"t&amp;1", "l1", "d&amp;1", "pd", "g1"⟩]⟩⟩

/-- w8Transport is a transport whose decode step yields `w8Feed`. -/
def w8Transport : Transport :=
  { newRequestErr := fun _ => none,
    doRequest := fun _ => Except.ok "resp",
    readBody := fun b => Except.ok b,
    unmarshal := fun _ => Except.ok w8Feed }

/-- w8Unescape is a concrete unescape oracle whose single application is
visible in its output. -/
def w8Unescape : String → String := fun s => "!" ++ s

/-- w7Feed is a document whose only entry has an unparseable publish date. -/
def w7Feed : RSSFeed :=
  ⟨⟨"c", "l", "d", "en", "lb", [⟨"T", "L", "", "bad date", "g"⟩]⟩⟩

/-- okFeedDoc is a concrete document with one entry, used as a fetch result. -/
def okFeedDoc : RSSFeed :=
  ⟨⟨"c", "l", "d", "en", "lb", [⟨"t", "pl", "pd", "pp", "g"⟩]⟩⟩

/-- wFetch is a fetch oracle failing exactly on the URL `"bad"`. -/
def wFetch : String → Except String RSSFeed :=
  fun u => if u = "bad" then Except.error "fetch failed" else Except.ok okFeedDoc

/-- wConfig is a concrete aggregation config over `wFetch` whose save oracle
always succeeds. -/
def wConfig : AggregationConfig :=
  ⟨2, wFetch, fun _ _ => none⟩

/-- wFeeds is a concrete feed list: one fetchable feed and one failing one. -/
def wFeeds : List FeedRow :=
  [⟨1, "good", "g", "u"⟩, ⟨2, "bad", "b", "u"⟩]

/-! ### Helper lemmas for the date normalizer -/

/-- The format loop fails iff every layout in the list rejects the trimmed
input. -/
theorem tryFormats_isSome_iff (goParse : GoParse) (s : String) (fs : List String) :
    ((tryFormats goParse s fs).2.isSome = true) ↔ ∀ f ∈ fs, goParse f (goTrimSpace s) = none := by
  induction fs with
  | nil => simp [tryFormats]
  | cons f rest ih =>
    cases h : goParse f (goTrimSpace s) with
    | none =>
      simp only [tryFormats, h]
      constructor
      · intro hfail g hg
        rcases List.mem_cons.mp hg with hg | hg
        · exact hg ▸ h
        · exact (ih.mp hfail) g hg
      · intro hall
        exact ih.mpr (fun g hg => hall g (List.mem_cons_of_mem f hg))
    | some t =>
      simp only [tryFormats, h]
      constructor
      · intro hfail; exact absurd hfail (by simp)
      · intro hall
        have := hall f (List.mem_cons_self f rest)
        rw [this] at h
        exact absurd h (by simp)

/-- When the format loop fails, the returned instant is the zero time. -/
theorem tryFormats_fail_fst (goParse : GoParse) (s : String) (fs : List String)
    (h : (tryFormats goParse s fs).2.isSome = true) :
    (tryFormats goParse s fs).1 = 0 := by
  induction fs with
  | nil => simp [tryFormats]
  | cons f rest ih =>
    cases hf : goParse f (goTrimSpace s) with
    | none =>
      simp only [tryFormats, hf] at h ⊢
      exact ih h
    | some t =>
      simp only [tryFormats, hf] at h
      exact absurd h (by simp)

/-- The instrumented format loop computes the same result as the plain one. -/
theorem tryFormatsTrace_fst (goParse : GoParse) (s : String) (fs : List String) :
    (tryFormatsTrace goParse s fs).1 = tryFormats goParse s fs := by
  induction fs with
  | nil => rfl
  | cons f rest ih =>
    cases hf : goParse f (goTrimSpace s) with
    | none => simp only [tryFormatsTrace, tryFormats, hf]; exact ih
    | some t => simp only [tryFormatsTrace, tryFormats, hf]

/-- If the layout list has a matching layout, the loop: succeeds, returns the
instant of the first matching layout, and attempts exactly the failing prefix
followed by that layout. -/
theorem tryFormatsTrace_spec (goParse : GoParse) (s : String) (fs : List String)
    (f₀ : String) (rest : List String)
    (hdrop : fs.dropWhile (fun f => (goParse f (goTrimSpace s)).isNone) = f₀ :: rest) :
    ∃ t, goParse f₀ (goTrimSpace s) = some t ∧
      tryFormatsTrace goParse s fs =
        ((t, none), fs.takeWhile (fun f => (goParse f (goTrimSpace s)).isNone) ++ [f₀]) := by
  induction fs with
  | nil => simp [List.dropWhile] at hdrop
  | cons f fs' ih =>
    cases hf : goParse f (goTrimSpace s) with
    | some t =>
      have hp : (goParse f (goTrimSpace s)).isNone = false := by rw [hf]; rfl
      rw [List.dropWhile_cons, hp] at hdrop
      simp only [if_neg Bool.false_ne_true] at hdrop
      obtain ⟨hf₀, -⟩ := List.cons.injEq .. ▸ hdrop
      refine ⟨t, ?_, ?_⟩
      · rw [← hf₀]; exact hf
      · simp only [tryFormatsTrace, hf, List.takeWhile_cons, hp]
        simp [hf₀]
    | none =>
      have hp : (goParse f (goTrimSpace s)).isNone = true := by rw [hf]; rfl
      rw [List.dropWhile_cons, hp] at hdrop
      simp only [if_pos rfl] at hdrop
      obtain ⟨t, ht, htr⟩ := ih hdrop
      refine ⟨t, ht, ?_⟩
      simp only [tryFormatsTrace, hf, htr, List.takeWhile_cons, hp]
      simp

/-- C4: date normalization fails exactly on an empty input, an all-whitespace
input, and an input whose trimmed form matches none of the supported layouts;
on an empty input it fails immediately (for every parse oracle, i.e. without
consulting any layout); no other input fails.  The hypothesis records the
behaviour of Go's `time.Parse` on an empty value: none of the six layouts
parses `""`. -/
theorem parsePubDate_failure_charact (goParse : GoParse)
    (hempty : ∀ f ∈ formats, goParse f "" = none) :
    (∀ g : GoParse, parsePubDate g "" = (0, some "empty published date"))
    ∧ (∀ s : String, (goTrimSpace s) = "" → ((parsePubDate goParse s).2.isSome = true))
    ∧ (∀ s : String, ((parsePubDate goParse s).2.isSome = true) ↔
        (s = "" ∨ ∀ f ∈ formats, goParse f (goTrimSpace s) = none)) := by
  refine ⟨fun g => by simp [parsePubDate], ?_, ?_⟩
  · intro s hs
    by_cases h : s = ""
    · simp [parsePubDate, h]
    · simp only [parsePubDate, if_neg h]
      exact (tryFormats_isSome_iff goParse s formats).mpr (fun f hf => hs ▸ hempty f hf)
  · intro s
    by_cases h : s = ""
    · subst h; simp [parsePubDate]
    · simp only [parsePubDate, if_neg h]
      rw [tryFormats_isSome_iff goParse s formats]
      exact (or_iff_right h).symm

/-- Witness for C4 at the everywhere-failing parse oracle and the input
`"Mon, bad date"`, whose trimmed form matches no layout. -/
theorem parsePubDate_failure_charact_witness :
    (parsePubDate (fun _ _ => none) "Mon, bad date").2.isSome = true :=
  ((parsePubDate_failure_charact (fun _ _ => none)
      (fun _ _ => rfl)).2.2 "Mon, bad date").mpr (Or.inr (fun _ _ => rfl))

/-- C5: on a non-empty input some layout of which matches, normalization
trims the input, succeeds with the instant of the first matching layout in
the fixed order of `formats`, and attempts exactly the failing prefix of the
layout list followed by the first matching layout — no layout after the
match.  Determinism is inherent: `parsePubDate` is a pure function of the
oracle and the input. -/
theorem parsePubDate_first_match (goParse : GoParse) (s : String) (f₀ : String)
    (rest : List String) (hs : s ≠ "")
    (hdrop : formats.dropWhile (fun f => (goParse f (goTrimSpace s)).isNone) = f₀ :: rest) :
    ∃ t, goParse f₀ (goTrimSpace s) = some t
      ∧ parsePubDate goParse s = (t, none)
      ∧ parsePubDateTrace goParse s =
          ((t, none), formats.takeWhile (fun f => (goParse f (goTrimSpace s)).isNone) ++ [f₀]) := by
  obtain ⟨t, ht, htr⟩ := tryFormatsTrace_spec goParse s formats f₀ rest hdrop
  refine ⟨t, ht, ?_, ?_⟩
  · have h1 := tryFormatsTrace_fst goParse s formats
    rw [htr] at h1
    simp only [parsePubDate, if_neg hs]
    exact h1.symm
  · simp only [parsePubDateTrace, if_neg hs]
    exact htr

/-- Witness for C5: the input `" 2024-05-06 "` (surrounding whitespace, last
layout matching) normalizes to the instant of that layout and the trace shows
all six layouts attempted, the match last. -/
theorem parsePubDate_first_match_witness :
    parsePubDate goParseW " 2024-05-06 " = (99, none)
    ∧ parsePubDateTrace goParseW " 2024-05-06 " =
        ((99, none), ["Mon, 02 Jan 2006 15:04:05 -0700",
          "Mon, 02 Jan 2006 15:04:05 MST",
          "2006-01-02T15:04:05Z07:00",
          "2006-01-02 15:04:05",
          "2006-01-02T15:04:05",
          "2006-01-02"]) := by
  obtain ⟨t, ht, hres, htr⟩ := parsePubDate_first_match goParseW " 2024-05-06 "
    "2006-01-02" [] (by decide) (by decide)
  have h99 : goParseW "2006-01-02" ((goTrimSpace " 2024-05-06 ")) = some 99 := by decide
  rw [ht] at h99
  obtain rfl := Option.some.inj h99
  refine ⟨hres, ?_⟩
  rw [htr]
  decide

/-- C6 counterexample: the claim says a transport whose timeout is not
strictly positive is rejected before any request is issued; but `FetchFeed`
only tests `client.Timeout == 0`, so a negative timeout (not strictly
positive) passes the guard, the request is issued, and the fetch succeeds. -/
theorem fetchFeed_negative_timeout_cex :
    ((-1 : Int) ≤ 0)
    ∧ fetchFeed (fun s => s) cexTransport { timeout := -1 } "u"
        = (Except.ok cexFeed, true) :=
  ⟨by decide, rfl⟩

/-- C6 (amended): if the supplied transport's timeout is exactly zero,
`FetchFeed` fails with the missing-timeout error before issuing any request;
a negative timeout is not rejected. -/
theorem fetchFeed_zero_timeout (unescape : String → String) (tr : Transport)
    (client : HTTPClient) (url : String) (h : client.timeout = 0) :
    fetchFeed unescape tr client url
      = (Except.error "HTTP client must have a timeout configured", false) := by
  simp [fetchFeed, h]

/-- Witness for the amended C6 at a zero-timeout client. -/
theorem fetchFeed_zero_timeout_witness :
    fetchFeed (fun s => s) cexTransport { timeout := 0 } "u"
      = (Except.error "HTTP client must have a timeout configured", false) :=
  fetchFeed_zero_timeout (fun s => s) cexTransport { timeout := 0 } "u" rfl

/-- C8: on a successful decode, the returned document is the decoded document
with the unescape function applied exactly once to the channel title, the
channel description, and every entry's title and description, and to no other
field (link, language, lastBuildDate, entry link, entry pubDate and entry
guid are returned unchanged, and the entry list keeps its order). -/
theorem fetchFeed_unescape_fields (unescape : String → String) (tr : Transport)
    (client : HTTPClient) (url resp body : String) (feed : RSSFeed)
    (ht : ¬client.timeout = 0)
    (hreq : tr.newRequestErr url = none)
    (hdo : tr.doRequest { method := "GET", url := url, userAgent := "gator" } = Except.ok resp)
    (hread : tr.readBody resp = Except.ok body)
    (hun : tr.unmarshal body = Except.ok feed) :
    fetchFeed unescape tr client url =
      (Except.ok
        { channel :=
          { title := unescape feed.channel.title,
            link := feed.channel.link,
            description := unescape feed.channel.description,
            language := feed.channel.language,
            lastBuildDate := feed.channel.lastBuildDate,
            items := feed.channel.items.map (fun it =>
              { title := unescape it.title,
                link := it.link,
                description := unescape it.description,
                pubDate := it.pubDate,
                guid := it.guid }) } }, true) := by
  simp only [fetchFeed, if_neg ht, hreq, hdo, hread, hun]

/-- Witness for C8: a concrete transport decoding `w8Feed`; the unescape
oracle is applied once to exactly the four text fields. -/
theorem fetchFeed_unescape_fields_witness :
    fetchFeed w8Unescape w8Transport { timeout := 5 } "u" =
      (Except.ok ⟨⟨"!A&amp;B", "L", "!C&amp;D", "en", "lb",
        [⟨"!t&amp;1", "l1", "!d&amp;1", "pd", "g1"⟩]⟩⟩, true) := by
  have h := fetchFeed_unescape_fields w8Unescape w8Transport { timeout := 5 } "u"
    "resp" "resp" w8Feed (by decide) rfl rfl rfl rfl
  exact h

/-! ### Helper lemmas for the persister -/

/-- When normalization fails, the instant it returns alongside the error is
the zero time (as Go's `time.Time{}` zero value). -/
theorem parsePubDate_fail_fst (goParse : GoParse) (s : String)
    (h : (parsePubDate goParse s).2.isSome = true) :
    (parsePubDate goParse s).1 = 0 := by
  by_cases hs : s = ""
  · simp [parsePubDate, hs]
  · simp only [parsePubDate, if_neg hs] at h ⊢
    exact tryFormats_fail_fst goParse s formats h

/-- The persister's loop attempts one insert per entry. -/
theorem savePostsLoop_length (goParse : GoParse) (gen : Nat → Nat × GoTime × GoTime)
    (db : CreatePostParams → Option String) (feedID : Nat) :
    ∀ (items : List RSSItem) (i : Nat),
      (savePostsLoop goParse gen db feedID i items).length = items.length := by
  intro items
  induction items with
  | nil => intro i; rfl
  | cons item rest ih =>
    intro i
    simp only [savePostsLoop, List.length_cons]
    rw [ih (i + 1)]

/-- The parameters attempted at position `j` of the loop started at index `i`
are those built from the entry at position `j`, with fresh values drawn at
index `i + j`. -/
theorem savePostsLoop_get? (goParse : GoParse) (gen : Nat → Nat × GoTime × GoTime)
    (db : CreatePostParams → Option String) (feedID : Nat) :
    ∀ (items : List RSSItem) (i j : Nat),
      ((savePostsLoop goParse gen db feedID i items).get? j).map Prod.fst
        = (items.get? j).map (fun it => mkCreatePostParams goParse gen feedID (i + j) it) := by
  intro items
  induction items with
  | nil => intro i j; rfl
  | cons item rest ih =>
    intro i j
    cases j with
    | zero => rfl
    | succ j' =>
      simp only [savePostsLoop, List.get?_cons_succ]
      rw [ih (i + 1) j']
      have : i + 1 + j' = i + (j' + 1) := by omega
      rw [this]

/-- Each attempted insert of the loop carries the title and link of its
entry, in document order. -/
theorem savePostsLoop_map_title_url (goParse : GoParse) (gen : Nat → Nat × GoTime × GoTime)
    (db : CreatePostParams → Option String) (feedID : Nat) :
    ∀ (items : List RSSItem) (i : Nat),
      ((savePostsLoop goParse gen db feedID i items).map (fun pc => (pc.1.title, pc.1.url)))
        = items.map (fun it => (it.title, it.link)) := by
  intro items
  induction items with
  | nil => intro i; rfl
  | cons item rest ih =>
    intro i
    simp only [savePostsLoop, List.map_cons]
    rw [ih (i + 1)]
    rfl

/-- C2: the persist operation attempts every entry of the document in order
(one `CreatePost` call per entry, carrying that entry's title and link) and
returns a nil error, for every store oracle — no matter how many entries were
duplicates and no matter how many individual inserts failed. -/
theorem savePosts_attempts_all (goParse : GoParse) (gen : Nat → Nat × GoTime × GoTime)
    (db : CreatePostParams → Option String) (feed : RSSFeed) (feedID : Nat) :
    (savePostsToDatabase goParse gen db feed feedID).1 = none
    ∧ ((savePostsToDatabase goParse gen db feed feedID).2.map (fun pc => (pc.1.title, pc.1.url)))
        = feed.channel.items.map (fun it => (it.title, it.link)) :=
  ⟨rfl, savePostsLoop_map_title_url goParse gen db feedID feed.channel.items 0⟩

/-- C7: an entry whose raw publish date fails to normalize is still inserted,
with no publish instant (`PublishedAt` invalid), and every entry of the
document is still attempted — the date error is absorbed inside the
persister. -/
theorem savePosts_bad_date_kept (goParse : GoParse) (gen : Nat → Nat × GoTime × GoTime)
    (db : CreatePostParams → Option String) (feed : RSSFeed) (feedID : Nat)
    (j : Nat) (item : RSSItem)
    (hj : feed.channel.items.get? j = some item)
    (hfail : (parsePubDate goParse item.pubDate).2.isSome = true) :
    (((savePostsToDatabase goParse gen db feed feedID).2.get? j).map
        (fun pc => pc.1.publishedAt)) = some none
    ∧ (savePostsToDatabase goParse gen db feed feedID).2.length
        = feed.channel.items.length := by
  constructor
  · have hget := savePostsLoop_get? goParse gen db feedID feed.channel.items 0 j
    rw [hj] at hget
    have hzero : (parsePubDate goParse item.pubDate).1 = 0 :=
      parsePubDate_fail_fst goParse item.pubDate hfail
    simp only [savePostsToDatabase]
    rw [show (((savePostsLoop goParse gen db feedID 0 feed.channel.items).get? j).map
        (fun pc => pc.1.publishedAt))
      = ((((savePostsLoop goParse gen db feedID 0 feed.channel.items).get? j).map
          Prod.fst).map (fun p => p.publishedAt)) from by
        cases (savePostsLoop goParse gen db feedID 0 feed.channel.items).get? j <;> rfl]
    rw [hget]
    simp [mkCreatePostParams, hzero]
  · exact savePostsLoop_length goParse gen db feedID feed.channel.items 0

/-- Witness for C7: a one-entry document whose date parses under no layout,
with an everywhere-rejecting parse oracle. -/
theorem savePosts_bad_date_kept_witness :
    ((((savePostsToDatabase (fun _ _ => none) (fun i => (i, 0, 0)) (fun _ => none)
          w7Feed 7).2.get? 0).map (fun pc => pc.1.publishedAt)) = some none)
    ∧ (savePostsToDatabase (fun _ _ => none) (fun i => (i, 0, 0)) (fun _ => none)
          w7Feed 7).2.length = w7Feed.channel.items.length :=
  savePosts_bad_date_kept (fun _ _ => none) (fun i => (i, 0, 0)) (fun _ => none)
    w7Feed 7 0 ⟨"T", "L", "", "bad date", "g"⟩ rfl (by decide)

/-! ### Helper lemmas for the scheduler -/

/-- Each feed's single mutex-protected update contributes to exactly one
counter, so folding `processFeed` over any completion order yields per-branch
counts on top of the starting accumulator. -/
theorem foldl_processFeed_counts (config : AggregationConfig) :
    ∀ (L : List FeedRow) (r : AggregationResult),
      L.foldl (fun r f => processFeed config f r) r
        = ⟨r.feedsProcessed + L.countP (processedB config),
           r.totalPosts + (L.map (entriesOf config)).sum,
           r.fetchErrors + L.countP (fetchFailsB config),
           r.saveErrors + L.countP (saveFailsB config)⟩ := by
  intro L
  induction L with
  | nil => intro r; cases r; simp
  | cons f L ih =>
    intro r
    rw [List.foldl_cons, ih]
    cases hf : config.fetch f.url with
    | error e =>
      simp [processFeed, hf, processedB, fetchFailsB, saveFailsB, entriesOf,
        List.countP_cons, AggregationResult.mk.injEq] <;> omega
    | ok doc =>
      cases hs : config.save doc f.id with
      | none =>
        simp [processFeed, hf, hs, processedB, fetchFailsB, saveFailsB, entriesOf,
          List.countP_cons, AggregationResult.mk.injEq] <;> omega
      | some e =>
        simp [processFeed, hf, hs, processedB, fetchFailsB, saveFailsB, entriesOf,
          List.countP_cons, AggregationResult.mk.injEq] <;> omega

/-- Every feed satisfies exactly one of the three branch predicates, so the
three counts partition the list. -/
theorem countP_partition_three (config : AggregationConfig) :
    ∀ L : List FeedRow,
      L.countP (processedB config) + L.countP (fetchFailsB config)
        + L.countP (saveFailsB config) = L.length := by
  intro L
  induction L with
  | nil => rfl
  | cons f L ih =>
    simp only [List.countP_cons, List.length_cons]
    cases hf : config.fetch f.url with
    | error e =>
      simp only [processedB, fetchFailsB, saveFailsB, hf]
      simp
      omega
    | ok doc =>
      cases hs : config.save doc f.id with
      | none =>
        simp only [processedB, fetchFailsB, saveFailsB, hf, hs]
        simp
        omega
      | some e =>
        simp only [processedB, fetchFailsB, saveFailsB, hf, hs]
        simp
        omega

/-- Counting a predicate and its negation covers the whole list. -/
theorem countP_add_countP_not {α : Type} (p : α → Bool) :
    ∀ L : List α, L.countP p + L.countP (fun a => !p a) = L.length := by
  intro L
  induction L with
  | nil => rfl
  | cons a L ih =>
    simp only [List.countP_cons, List.length_cons]
    cases h : p a <;> simp <;> omega

/-- Counts agree for predicates that agree on the members of the list. -/
theorem countP_eq_of_mem {α : Type} (p q : α → Bool) :
    ∀ L : List α, (∀ a ∈ L, p a = q a) → L.countP p = L.countP q := by
  intro L
  induction L with
  | nil => intro _; rfl
  | cons a L ih =>
    intro h
    simp only [List.countP_cons]
    rw [ih (fun b hb => h b (List.mem_cons_of_mem a hb)),
      h a (List.mem_cons_self a L)]

/-- A single gate step preserves the invariant. -/
theorem semStep_inv {cap n : Nat} {s s' : SemState} (hstep : SemStep cap n s s')
    (hinv : SemInv cap n s) : SemInv cap n s' := by
  obtain ⟨h1, h2, h3, h4, h5⟩ := hinv
  cases hstep with
  | acquire hm hn hh =>
    rw [hm] at h1
    simp only [Bool.false_eq_true, if_false] at h1
    refine ⟨?_, ?_, h3, h4, fun _ => hn⟩
    · show s.held + 1 = s.active + 1
      omega
    · show s.held + 1 ≤ cap
      omega
  | spawn hm =>
    rw [hm] at h1
    simp only [if_true] at h1
    refine ⟨?_, h2, ?_, ?_, ?_⟩
    · show s.held = s.active + 1 + 0
      omega
    · show s.finished + (s.active + 1) = s.next + 1
      omega
    · show s.next + 1 ≤ n
      exact h5 hm
    · intro hfalse
      exact absurd hfalse Bool.false_ne_true
  | finish ha =>
    refine ⟨?_, ?_, ?_, h4, h5⟩
    · show s.held - 1 = s.active - 1 + (if s.mainHolding = true then 1 else 0)
      cases hm : s.mainHolding with
      | false =>
        rw [hm] at h1
        simp only [Bool.false_eq_true, if_false] at h1 ⊢
        omega
      | true =>
        rw [hm] at h1
        simp only [if_true] at h1 ⊢
        omega
    · show s.held - 1 ≤ cap
      omega
    · show s.finished + 1 + (s.active - 1) = s.next
      omega

/-- The gate invariant holds in every reachable state of a run. -/
theorem reachable_inv {cap n : Nat} {s : SemState} (h : Reachable cap n s) :
    SemInv cap n s := by
  induction h with
  | init => exact ⟨rfl, Nat.zero_le cap, rfl, Nat.zero_le n, fun hf => absurd hf Bool.false_ne_true⟩
  | step hr hstep ih => exact semStep_inv hstep ih

/-- A run with a positive capacity can always take a step until every feed
has finished: the gate never deadlocks. -/
theorem sem_progress (cap n : Nat) (hcap : 1 ≤ cap) (s : SemState)
    (hr : Reachable cap n s) :
    (∃ s', SemStep cap n s s') ∨ (s.finished = n ∧ s.active = 0) := by
  obtain ⟨h1, h2, h3, h4, h5⟩ := reachable_inv hr
  by_cases ha : 0 < s.active
  · exact Or.inl ⟨_, SemStep.finish s ha⟩
  · cases hm : s.mainHolding
    · by_cases hn : s.next < n
      · refine Or.inl ⟨_, SemStep.acquire s hm hn ?_⟩
        rw [hm] at h1
        simp at h1
        omega
      · refine Or.inr ⟨?_, by omega⟩
        omega
    · exact Or.inl ⟨_, SemStep.spawn s hm⟩

/-- C10: whatever the injected fetch and save outcomes, each feed of a run
contributes to exactly one of the three counters, so for every completion
order (any interleaving of the mutex-serialized updates is some permutation
of the feed list) the counters sum to the number of input feeds. -/
theorem aggregate_partition (config : AggregationConfig) (feeds order : List FeedRow)
    (hperm : order.Perm feeds) :
    (aggregateFeeds config order).feedsProcessed
      + (aggregateFeeds config order).fetchErrors
      + (aggregateFeeds config order).saveErrors = feeds.length := by
  have hcounts := foldl_processFeed_counts (validateConfig config) order ⟨0, 0, 0, 0⟩
  simp only [aggregateFeeds, runOrder, hcounts]
  have := countP_partition_three (validateConfig config) order
  have hlen := hperm.length_eq
  omega

/-- Witness for C10 on a two-feed run with one fetch failure. -/
theorem aggregate_partition_witness :
    (aggregateFeeds wConfig wFeeds).feedsProcessed
      + (aggregateFeeds wConfig wFeeds).fetchErrors
      + (aggregateFeeds wConfig wFeeds).saveErrors = 2 :=
  aggregate_partition wConfig wFeeds wFeeds (List.Perm.refl wFeeds)

/-- C1: over N feeds of which F fail to fetch, when every successfully
fetched feed also saves successfully, every run — for every concurrency
setting `c` with `1 ≤ c ≤ N` and every completion order — reports
`FeedsProcessed = N - F` and `FetchErrors = F`. -/
theorem aggregate_fetch_fail_counts (config : AggregationConfig)
    (feeds order : List FeedRow) (c : Int)
    (hc1 : 1 ≤ c) (hcN : c ≤ (feeds.length : Int))
    (hperm : order.Perm feeds)
    (hsave : ∀ f ∈ feeds, ∀ doc, config.fetch f.url = Except.ok doc →
      config.save doc f.id = none) :
    (aggregateFeeds { config with workers := c } order).feedsProcessed
        = feeds.length - feeds.countP (fetchFailsB config)
    ∧ (aggregateFeeds { config with workers := c } order).fetchErrors
        = feeds.countP (fetchFailsB config) := by
  have hcounts := foldl_processFeed_counts (validateConfig { config with workers := c })
    order ⟨0, 0, 0, 0⟩
  have hfetchEq : fetchFailsB (validateConfig { config with workers := c })
      = fetchFailsB config := by
    unfold validateConfig fetchFailsB
    by_cases h : c ≤ 0 <;> simp [h]
  have hprocEq : processedB (validateConfig { config with workers := c })
      = processedB config := by
    unfold validateConfig processedB
    by_cases h : c ≤ 0 <;> simp [h]
  have hfe : order.countP (fetchFailsB config) = feeds.countP (fetchFailsB config) :=
    hperm.countP_eq (fetchFailsB config)
  have hproc : order.countP (processedB config) = feeds.countP (processedB config) :=
    hperm.countP_eq (processedB config)
  have hcompl : feeds.countP (processedB config)
      = feeds.countP (fun f => !fetchFailsB config f) := by
    apply countP_eq_of_mem
    intro f hf
    cases hfetch : config.fetch f.url with
    | error e => simp [processedB, fetchFailsB, hfetch]
    | ok doc =>
      have := hsave f hf doc hfetch
      simp [processedB, fetchFailsB, hfetch, this]
  have hsplit := countP_add_countP_not (fetchFailsB config) feeds
  constructor
  · simp only [aggregateFeeds, runOrder, hcounts, hfetchEq, hprocEq]
    simp only [Nat.zero_add]
    omega
  · simp only [aggregateFeeds, runOrder, hcounts, hfetchEq, hprocEq]
    simp only [Nat.zero_add]
    omega

/-- Witness for C1: two feeds, one failing fetch, concurrency 1; the run
reports one processed feed and one fetch error. -/
theorem aggregate_fetch_fail_counts_witness :
    (aggregateFeeds { wConfig with workers := 1 } wFeeds).feedsProcessed = 1
    ∧ (aggregateFeeds { wConfig with workers := 1 } wFeeds).fetchErrors = 1 := by
  have h := aggregate_fetch_fail_counts wConfig wFeeds wFeeds 1 (by decide) (by decide)
    (List.Perm.refl wFeeds) (by
      intro f hf doc hfetch
      rfl)
  refine ⟨?_, ?_⟩
  · rw [h.1]; decide
  · rw [h.2]; decide

/-- C3: a zero-or-negative worker setting is clamped to an effective
concurrency of 1; the run computes the same aggregate result as with
concurrency 1, still accounts for every input feed (the three counters sum
to the feed count, so the run is not a no-op), and the capacity-1 gate can
always step until all feeds have finished (no deadlock). -/
theorem aggregate_clamp (config : AggregationConfig) (feeds : List FeedRow)
    (h : config.workers ≤ 0) :
    (validateConfig config).workers = 1
    ∧ aggregateFeeds config feeds = aggregateFeeds { config with workers := 1 } feeds
    ∧ (aggregateFeeds config feeds).feedsProcessed
        + (aggregateFeeds config feeds).fetchErrors
        + (aggregateFeeds config feeds).saveErrors = feeds.length
    ∧ (∀ s, Reachable 1 feeds.length s →
        (∃ s', SemStep 1 feeds.length s s') ∨ (s.finished = feeds.length ∧ s.active = 0)) := by
  have hval : validateConfig config = { config with workers := 1 } := by
    unfold validateConfig
    rw [if_pos h]
  have hval1 : validateConfig { config with workers := 1 } = { config with workers := 1 } := by
    unfold validateConfig
    rw [if_neg (by simp)]
  refine ⟨by rw [hval], ?_, ?_, ?_⟩
  · simp only [aggregateFeeds, hval, hval1]
  · have hcounts := foldl_processFeed_counts (validateConfig config) feeds ⟨0, 0, 0, 0⟩
    simp only [aggregateFeeds, runOrder, hcounts]
    have := countP_partition_three (validateConfig config) feeds
    omega
  · intro s hs
    exact sem_progress 1 feeds.length (le_refl 1) s hs

/-- Witness for C3 at a workers-0 config over two feeds. -/
theorem aggregate_clamp_witness :
    (validateConfig { wConfig with workers := 0 }).workers = 1
    ∧ aggregateFeeds { wConfig with workers := 0 } wFeeds
        = aggregateFeeds { { wConfig with workers := 0 } with workers := 1 } wFeeds
    ∧ (aggregateFeeds { wConfig with workers := 0 } wFeeds).feedsProcessed
        + (aggregateFeeds { wConfig with workers := 0 } wFeeds).fetchErrors
        + (aggregateFeeds { wConfig with workers := 0 } wFeeds).saveErrors = 2 := by
  have h := aggregate_clamp { wConfig with workers := 0 } wFeeds (by decide)
  exact ⟨h.1, h.2.1, h.2.2.1⟩

/-- C9: in every reachable state of a run of the admission gate, at most
`c` per-feed workers are simultaneously active, where `c` is the effective
concurrency of the validated config — and that effective concurrency is at
least 1. -/
theorem semaphore_bound (config : AggregationConfig) (n : Nat) (s : SemState)
    (hr : Reachable ((validateConfig config).workers.toNat) n s) :
    1 ≤ (validateConfig config).workers.toNat
    ∧ s.active ≤ (validateConfig config).workers.toNat := by
  constructor
  · unfold validateConfig
    by_cases h : config.workers ≤ 0
    · simp [h]
    · simp only [if_neg h]
      omega
  · obtain ⟨h1, h2, h3, h4, h5⟩ := reachable_inv hr
    cases hm : s.mainHolding with
    | false => rw [hm] at h1; simp at h1; omega
    | true => rw [hm] at h1; simp at h1; omega

/-- Witness for C9 at the initial state of a run over 5 feeds with the
2-worker config. -/
theorem semaphore_bound_witness :
    1 ≤ (validateConfig wConfig).workers.toNat
    ∧ (⟨0, false, 0, 0, 0⟩ : SemState).active ≤ (validateConfig wConfig).workers.toNat :=
  semaphore_bound wConfig 5 ⟨0, false, 0, 0, 0⟩ Reachable.init

end Gator
